import Mathlib

/-!
Verification of the task-management client's per-entity serialized update
queue and optimistic update controller, as implemented in
`frontend/components/TaskItem.tsx`, `frontend/app/page.tsx` and
`frontend/lib/api.ts`.  The component handlers are embedded as an explicit
state machine: each `async` handler is split at its single `await` point
into a synchronous prefix (triggered by a user event) and a continuation
(triggered by the settlement of the remote call it enqueued).
-/

namespace TaskApp

/-- The `Task` interface of `frontend/lib/api.ts`. -/
structure Task where
  id : Nat
  title : String
  is_completed : Bool
  user_id : String
  created_at : String
  updated_at : String
deriving DecidableEq, Repr

/-- A remote request submitted through `taskUpdateQueue.enqueue`:
`updateTask(id, \x7b is_completed \x7d)`, `updateTask(id, \x7b title \x7d)`
or `deleteTask(id)`. -/
inductive Request where
  | putCompleted (id : Nat) (value : Bool)
  | putTitle (id : Nat) (value : String)
  | deleteTask (id : Nat)
deriving DecidableEq, Repr

/-- Key for the toggle lane, the template literal `toggle-$\x7btask.id\x7d`. -/
def toggleKey (id : Nat) : String := "toggle-" ++ toString id

/-- Key for the rename lane, the template literal `edit-$\x7btask.id\x7d`. -/
def editKey (id : Nat) : String := "edit-" ++ toString id

/-- Key for the delete lane, the template literal `delete-$\x7btask.id\x7d`. -/
def deleteKey (id : Nat) : String := "delete-" ++ toString id

/-- The continuation of a handler that is awaiting the settlement of the
remote call it enqueued.  `toggle` carries the captured `previousState`
local constant of `handleToggleCompletion`. -/
inductive Cont where
  | toggle (previousState : Bool)
  | edit
  | delete
deriving DecidableEq, Repr

/-- Events driving one `TaskItem` component: the three user-initiated
handler invocations, and the settlement (fulfilment with a task, or
rejection) of the oldest still-pending remote call. -/
inductive UiEvent where
  | clickToggle
  | saveEdit
  | confirmDelete
  | settleOk (t : Task)
  | settleErr
deriving DecidableEq, Repr

/-- State of one `TaskItem` component instance together with its observable
effects: `task` is the prop, the five `useState` hooks follow, `pending`
holds the continuations of enqueued-but-unsettled remote calls in enqueue
order, `calls` logs every `(key, request)` pair handed to
`taskUpdateQueue.enqueue`, and `updatedEvents`/`deletedEvents` log the
`onTaskUpdated`/`onTaskDeleted` notifications sent to the parent. -/
structure CState where
  task : Task
  isEditing : Bool
  title : String
  isCompleted : Bool
  showDeleteConfirm : Bool
  isUpdating : Bool
  pending : List Cont
  calls : List (String × Request)
  updatedEvents : List Task
  deletedEvents : List Nat
deriving DecidableEq, Repr

/-- JavaScript's `String.prototype.trim()` as called by `handleEditSave`:
strip leading and trailing whitespace, embedded structurally over the
character list so it evaluates on concrete inputs. -/
def jsTrim (s : String) : String :=
  ⟨((s.data.dropWhile Char.isWhitespace).reverse.dropWhile Char.isWhitespace).reverse⟩

/-- Initial component state from the `useState` initializers of
`TaskItem.tsx`. -/
def initState (t : Task) : CState :=
  { task := t, isEditing := false, title := t.title
  , isCompleted := t.is_completed, showDeleteConfirm := false
  , isUpdating := false, pending := [], calls := []
  , updatedEvents := [], deletedEvents := [] }

/-- One transition of the component, embedding the handler bodies of
`TaskItem.tsx`.  `clickToggle` is the synchronous prefix of
`handleToggleCompletion` (guard, snapshot, optimistic flip, enqueue);
`saveEdit` of `handleEditSave` (guard on `isUpdating` or blank trimmed
title, else enqueue); `confirmDelete` of `handleDelete`.  `settleOk` and
`settleErr` run the continuation of the oldest pending call: the `try`
body after the `await`, or the `catch` block, followed by the `finally`
block where the source has one (`handleDelete` resets `isUpdating` only in
its `catch`). -/
def step (s : CState) : UiEvent → CState
  | .clickToggle =>
    if s.isUpdating then s
    else
      { s with isUpdating := true
             , isCompleted := !s.isCompleted
             , pending := s.pending ++ [Cont.toggle s.isCompleted]
             , calls := s.calls ++
                 [(toggleKey s.task.id, Request.putCompleted s.task.id (!s.isCompleted))] }
  | .saveEdit =>
    if s.isUpdating ∨ jsTrim s.title = "" then
      { s with title := s.task.title, isEditing := false }
    else
      { s with isUpdating := true
             , pending := s.pending ++ [Cont.edit]
             , calls := s.calls ++
                 [(editKey s.task.id, Request.putTitle s.task.id (jsTrim s.title))] }
  | .confirmDelete =>
    if s.isUpdating then s
    else
      { s with isUpdating := true
             , pending := s.pending ++ [Cont.delete]
             , calls := s.calls ++ [(deleteKey s.task.id, Request.deleteTask s.task.id)] }
  | .settleOk t =>
    match s.pending with
    | [] => s
    | c :: rest =>
      match c with
      | .toggle _ =>
        { s with pending := rest, isCompleted := t.is_completed
               , updatedEvents := s.updatedEvents ++ [t], isUpdating := false }
      | .edit =>
        { s with pending := rest, updatedEvents := s.updatedEvents ++ [t]
               , isEditing := false, isUpdating := false }
      | .delete =>
        { s with pending := rest, deletedEvents := s.deletedEvents ++ [s.task.id]
               , showDeleteConfirm := false }
  | .settleErr =>
    match s.pending with
    | [] => s
    | c :: rest =>
      match c with
      | .toggle previousState =>
        { s with pending := rest, isCompleted := previousState, isUpdating := false }
      | .edit =>
        { s with pending := rest, title := s.task.title, isEditing := false
               , isUpdating := false }
      | .delete =>
        { s with pending := rest, isUpdating := false }

/-- Runs a component from a state through a sequence of events. -/
def runUi (s : CState) (evs : List UiEvent) : CState :=
  evs.foldl step s

/-- The parent's `handleTaskUpdated` in `frontend/app/page.tsx`: replace
the list entry whose id matches the updated task. -/
def handleTaskUpdated (tasks : List Task) (updatedTask : Task) : List Task :=
  tasks.map fun t => if t.id = updatedTask.id then updatedTask else t

/-- The parent's `handleTaskDeleted` in `frontend/app/page.tsx`: drop the
list entry with the deleted id. -/
def handleTaskDeleted (tasks : List Task) (taskId : Nat) : List Task :=
  tasks.filter fun t => t.id ≠ taskId

/-! ## The HTTP error path of `apiRequest` (`frontend/lib/api.ts`) -/

/-- Result of `await response.json()` on an error response, reduced to
what `apiRequest` inspects: whether the body parsed as JSON at all
(`none` = the `catch (e)` branch), and its `detail` field, modelled as an
optional string (`none` = field absent or `undefined`). -/
structure ErrorBody where
  detail : Option String
deriving DecidableEq, Repr

/-- An HTTP response as `apiRequest` observes it: `ok`, `status`,
`statusText`, and the outcome of `response.json()`. -/
structure HttpResponse where
  ok : Bool
  status : Nat
  statusText : String
  jsonBody : Option ErrorBody
deriving DecidableEq, Repr

/-- Outcome of `apiRequest`: a thrown `Error(errorMessage)` on a non-ok
response, or a rejected json parse on the success path. -/
inductive ApiFailure where
  | apiError (message : String)
  | parseFailure
deriving DecidableEq, Repr

/-- Default message `API request failed: $\x7bresponse.status\x7d
$\x7bresponse.statusText\x7d` of `apiRequest`. -/
def defaultMsg (resp : HttpResponse) : String :=
  "API request failed: " ++ toString resp.status ++ " " ++ resp.statusText

/-- Embedding of `apiRequest` from `frontend/lib/api.ts`, from the
`fetch` settlement on: on `!response.ok`, build `errorMessage` (the
`detail` field of the parsed body if that field is truthy in the
JavaScript sense, i.e. present and a non-empty string, else the default
message) and throw; on an ok response return the parsed body. -/
def apiRequest (resp : HttpResponse) : Except ApiFailure ErrorBody :=
  if resp.ok then
    match resp.jsonBody with
    | some body => Except.ok body
    | none => Except.error ApiFailure.parseFailure
  else
    let msg :=
      match resp.jsonBody with
      | some body =>
        match body.detail with
        | some d => if d = "" then defaultMsg resp else d
        | none => defaultMsg resp
      | none => defaultMsg resp
    Except.error (ApiFailure.apiError msg)

/-! ## The Keyed Serial Queue -/

/-- Modelled from the spec: the implementation of `taskUpdateQueue`
(`frontend/lib/requestQueue.ts`, imported by `TaskItem.tsx`) is not among
the provided sources; this model follows spec section 4.1.  An enqueued
action, with an identifier, the number of scheduler ticks it runs before
settling once started (its completion latency), and whether it settles
successfully — the queue is agnostic to the outcome. -/
structure QAction where
  actId : Nat
  latency : Nat
  succeeds : Bool
deriving DecidableEq, Repr

/-- Modelled from the spec: the per-key lane map of the Keyed Serial
Queue, key to FIFO sequence of pending actions; the head of a nonempty
lane is the action currently executing. -/
def QState : Type := String → List QAction

/-- Modelled from the spec: a queue with no lanes. -/
def emptyQueue : QState := fun _ => []

/-- Modelled from the spec: `enqueue(key, action)` appends the action to
the lane for `key`, leaving every other lane untouched. -/
def enqueue (q : QState) (k : String) (a : QAction) : QState :=
  fun k2 => if k2 = k then q k ++ [a] else q k2

/-- Modelled from the spec: enqueue a whole sequence under one key in
order. -/
def enqueueAll (q : QState) (k : String) (ops : List QAction) : QState :=
  ops.foldl (fun q2 a => enqueue q2 k a) q

/-- Modelled from the spec: the settlement of one action, as observed by
the caller who enqueued it. -/
structure SettleEvent where
  key : String
  actId : Nat
  succeeded : Bool
deriving DecidableEq, Repr

/-- Modelled from the spec: one scheduler tick granted to the lane of
`k`.  The executing action (the head) either consumes one tick of its
latency, or — when its latency is exhausted — settles: it is removed and
its settlement is emitted.  The next action of the lane can therefore
start only after the current one has fully settled, whatever the
outcome. -/
def queueTick (q : QState) (k : String) : QState × Option SettleEvent :=
  match q k with
  | [] => (q, none)
  | a :: rest =>
    if a.latency = 0 then
      (fun k2 => if k2 = k then rest else q k2, some ⟨k, a.actId, a.succeeds⟩)
    else
      (fun k2 => if k2 = k then { a with latency := a.latency - 1 } :: rest else q k2,
       none)

/-- Modelled from the spec: run the queue under an arbitrary interleaving
(the schedule says which key's lane advances at each tick) and collect
the settlement events in order. -/
def runQueue (q : QState) : List String → List SettleEvent
  | [] => []
  | k :: ks =>
    let p := queueTick q k
    p.2.toList ++ runQueue p.1 ks

/-- Settlement order observed for one key: the action ids of that key's
settlement events, in order. -/
def settledFor (k : String) (evs : List SettleEvent) : List Nat :=
  (evs.filter fun e => e.key = k).map SettleEvent.actId

/-- Total number of ticks a lane needs to drain completely. -/
def laneWork (lane : List QAction) : Nat :=
  (lane.map fun a => a.latency + 1).sum

/-! ## Injectivity of the decimal key suffix

The lane keys are the template literals `toggle-$\x7btask.id\x7d`,
`edit-$\x7btask.id\x7d` and `delete-$\x7btask.id\x7d`, whose numeric part
is the decimal rendering of the task id (`Nat.repr` in this embedding).
These lemmas establish that the rendering is injective, so distinct
entities get distinct keys. -/

/-- Decimal digit list of a natural number, most significant first;
reference version of `Nat.toDigitsCore` at base 10 without fuel. -/
def decDigits (n : Nat) : List Char :=
  if h : n / 10 = 0 then [Nat.digitChar (n % 10)]
  else decDigits (n / 10) ++ [Nat.digitChar (n % 10)]
decreasing_by omega

theorem toDigitsCore_eq_decDigits :
    ∀ (fuel n : Nat) (acc : List Char), n < fuel →
      Nat.toDigitsCore 10 fuel n acc = decDigits n ++ acc := by
  intro fuel
  induction fuel with
  | zero => intro n acc h; omega
  | succ f ih =>
    intro n acc h
    have hstep : Nat.toDigitsCore 10 (f + 1) n acc =
        if n / 10 = 0 then Nat.digitChar (n % 10) :: acc
        else Nat.toDigitsCore 10 f (n / 10) (Nat.digitChar (n % 10) :: acc) := rfl
    rw [hstep]
    by_cases hz : n / 10 = 0
    · rw [if_pos hz, decDigits, dif_pos hz]
      rfl
    · rw [if_neg hz, ih (n / 10) (Nat.digitChar (n % 10) :: acc) (by omega),
          show decDigits n = decDigits (n / 10) ++ [Nat.digitChar (n % 10)] from
            by rw [decDigits, dif_neg hz],
          List.append_assoc]
      rfl

/-- Numeric value of a decimal digit character. -/
def decVal (c : Char) : Nat := c.toNat - 48

/-- Value of a most-significant-first decimal digit list. -/
def ofDecDigits (l : List Char) : Nat :=
  l.foldl (fun acc c => 10 * acc + decVal c) 0

theorem decVal_digitChar : ∀ d : Nat, d < 10 → decVal (Nat.digitChar d) = d := by
  decide

theorem ofDecDigits_append_singleton (l : List Char) (c : Char) :
    ofDecDigits (l ++ [c]) = 10 * ofDecDigits l + decVal c := by
  simp [ofDecDigits, List.foldl_append]

theorem ofDecDigits_decDigits : ∀ n : Nat, ofDecDigits (decDigits n) = n := by
  intro n
  induction n using Nat.strong_induction_on with
  | _ n ih =>
    by_cases hz : n / 10 = 0
    · rw [decDigits, dif_pos hz]
      have : ofDecDigits [Nat.digitChar (n % 10)] = decVal (Nat.digitChar (n % 10)) := by
        simp [ofDecDigits]
      rw [this, decVal_digitChar (n % 10) (by omega)]
      omega
    · rw [decDigits, dif_neg hz, ofDecDigits_append_singleton,
          ih (n / 10) (by omega), decVal_digitChar (n % 10) (by omega)]
      omega

theorem decDigits_injective (a b : Nat) (h : decDigits a = decDigits b) : a = b := by
  have := congrArg ofDecDigits h
  rwa [ofDecDigits_decDigits, ofDecDigits_decDigits] at this

theorem repr_data_eq_decDigits (n : Nat) : (Nat.repr n).data = decDigits n := by
  show (Nat.toDigitsCore 10 (n + 1) n []).asString.data = decDigits n
  rw [toDigitsCore_eq_decDigits (n + 1) n [] (Nat.lt_succ_self n), List.append_nil]
  rfl

theorem repr_injective (a b : Nat) (h : Nat.repr a = Nat.repr b) : a = b := by
  apply decDigits_injective
  rw [← repr_data_eq_decDigits, ← repr_data_eq_decDigits, h]

theorem enqueue_apply_self (q : QState) (k : String) (a : QAction) :
    enqueue q k a k = q k ++ [a] := by
  simp [enqueue]

theorem enqueue_apply_ne (q : QState) (k k2 : String) (a : QAction) (h : k2 ≠ k) :
    enqueue q k a k2 = q k2 := by
  simp [enqueue, h]

theorem enqueueAll_apply (k : String) (ops : List QAction) :
    ∀ q : QState, enqueueAll q k ops k = q k ++ ops := by
  induction ops with
  | nil => intro q; simp [enqueueAll]
  | cons a rest ih =>
    intro q
    show enqueueAll (enqueue q k a) k rest k = q k ++ (a :: rest)
    rw [ih (enqueue q k a), enqueue_apply_self]
    simp

theorem queueTick_fst_apply_ne (q : QState) (k k2 : String) (h : k2 ≠ k) :
    (queueTick q k).1 k2 = q k2 := by
  unfold queueTick
  cases hq : q k with
  | nil => rfl
  | cons a rest =>
    by_cases hl : a.latency = 0 <;> simp [hl, h]

theorem queueTick_snd_key (q : QState) (k : String) (e : SettleEvent)
    (h : (queueTick q k).2 = some e) : e.key = k := by
  unfold queueTick at h
  cases hq : q k with
  | nil =>
    rw [hq] at h
    have h2 : (none : Option SettleEvent) = some e := h
    simp at h2
  | cons a rest =>
    rw [hq] at h
    have h3 : ((if a.latency = 0 then
          ((fun k2 => if k2 = k then rest else q k2),
            some (⟨k, a.actId, a.succeeds⟩ : SettleEvent))
        else
          ((fun k2 => if k2 = k then { a with latency := a.latency - 1 } :: rest
                      else q k2), none)) : QState × Option SettleEvent).2 = some e := h
    by_cases hl : a.latency = 0
    · rw [if_pos hl] at h3
      have h2 : some (⟨k, a.actId, a.succeeds⟩ : SettleEvent) = some e := h3
      cases h2
      rfl
    · rw [if_neg hl] at h3
      have h2 : (none : Option SettleEvent) = some e := h3
      simp at h2

theorem settledFor_nil (k : String) : settledFor k [] = [] := rfl

theorem settledFor_cons_ne (k : String) (e : SettleEvent) (evs : List SettleEvent)
    (h : e.key ≠ k) : settledFor k (e :: evs) = settledFor k evs := by
  simp [settledFor, h]

theorem settledFor_cons_eq (k : String) (e : SettleEvent) (evs : List SettleEvent)
    (h : e.key = k) : settledFor k (e :: evs) = e.actId :: settledFor k evs := by
  simp [settledFor, h]

/-- Under any interleaving, the settlements observed for one key are an
initial segment of that key's lane, in FIFO order. -/
theorem settledFor_runQueue_take (schedule : List String) :
    ∀ (q : QState) (k : String), ∃ m, m ≤ (q k).length ∧
      settledFor k (runQueue q schedule) = ((q k).map QAction.actId).take m := by
  induction schedule with
  | nil =>
    intro q k
    exact ⟨0, Nat.zero_le _, by simp [runQueue, settledFor]⟩
  | cons j ks ih =>
    intro q k
    show ∃ m, m ≤ (q k).length ∧
      settledFor k ((queueTick q j).2.toList ++ runQueue (queueTick q j).1 ks)
        = ((q k).map QAction.actId).take m
    by_cases hjk : j = k
    · subst hjk
      cases hq : q j with
      | nil =>
        have ht : queueTick q j = (q, none) := by simp [queueTick, hq]
        obtain ⟨m, hm, he⟩ := ih q j
        refine ⟨0, Nat.zero_le _, ?_⟩
        rw [ht]
        simp only [Option.toList_none, List.nil_append]
        rw [he, hq]
        simp
      | cons a rest =>
        by_cases hl : a.latency = 0
        · have ht : queueTick q j =
              ((fun k2 => if k2 = j then rest else q k2), some ⟨j, a.actId, a.succeeds⟩) := by
            simp [queueTick, hq, hl]
          obtain ⟨m, hm, he⟩ := ih (fun k2 => if k2 = j then rest else q k2) j
          have hm2 : m ≤ rest.length := by simpa using hm
          have he2 : settledFor j (runQueue (fun k2 => if k2 = j then rest else q k2) ks)
              = List.take m (List.map QAction.actId rest) := by simpa using he
          refine ⟨m + 1, by simp only [List.length_cons]; omega, ?_⟩
          rw [ht]
          simp only [Option.toList_some, List.cons_append, List.nil_append]
          rw [settledFor_cons_eq j _ _ rfl, he2]
          simp
        · have ht : queueTick q j =
              ((fun k2 => if k2 = j then { a with latency := a.latency - 1 } :: rest
                          else q k2), none) := by
            simp [queueTick, hq, hl]
          obtain ⟨m, hm, he⟩ :=
            ih (fun k2 => if k2 = j then { a with latency := a.latency - 1 } :: rest
                          else q k2) j
          have hm2 : m ≤ rest.length + 1 := by simpa using hm
          have he2 : settledFor j (runQueue
                (fun k2 => if k2 = j then { a with latency := a.latency - 1 } :: rest
                           else q k2) ks)
              = List.take m (a.actId :: List.map QAction.actId rest) := by simpa using he
          refine ⟨m, by simp only [List.length_cons]; omega, ?_⟩
          rw [ht]
          simp only [Option.toList_none, List.nil_append]
          rw [he2]
          simp
    · obtain ⟨m, hm, he⟩ := ih (queueTick q j).1 k
      rw [queueTick_fst_apply_ne q j k (fun h => hjk h.symm)] at hm he
      refine ⟨m, hm, ?_⟩
      cases hev : (queueTick q j).2 with
      | none => simpa using he
      | some e =>
        have hk : e.key = j := queueTick_snd_key q j e hev
        simp only [Option.toList_some, List.cons_append, List.nil_append]
        rw [settledFor_cons_ne k e _ (by rw [hk]; exact fun h => hjk h)]
        exact he

/-- The settlements observed for one key depend only on that key's lane:
two queues agreeing on the lane of `k` yield the same settlement sequence
for `k` under every schedule. -/
theorem settledFor_runQueue_congr (schedule : List String) :
    ∀ (q1 q2 : QState) (k : String), q1 k = q2 k →
      settledFor k (runQueue q1 schedule) = settledFor k (runQueue q2 schedule) := by
  induction schedule with
  | nil => intro q1 q2 k _; rfl
  | cons j ks ih =>
    intro q1 q2 k h
    show settledFor k ((queueTick q1 j).2.toList ++ runQueue (queueTick q1 j).1 ks)
       = settledFor k ((queueTick q2 j).2.toList ++ runQueue (queueTick q2 j).1 ks)
    by_cases hjk : j = k
    · subst hjk
      cases hq : q1 j with
      | nil =>
        have ht1 : queueTick q1 j = (q1, none) := by simp [queueTick, hq]
        have ht2 : queueTick q2 j = (q2, none) := by simp [queueTick, ← h, hq]
        simp only [ht1, ht2, Option.toList_none, List.nil_append]
        exact ih q1 q2 j h
      | cons a rest =>
        by_cases hl : a.latency = 0
        · have ht1 : queueTick q1 j =
              ((fun k2 => if k2 = j then rest else q1 k2), some ⟨j, a.actId, a.succeeds⟩) := by
            simp [queueTick, hq, hl]
          have ht2 : queueTick q2 j =
              ((fun k2 => if k2 = j then rest else q2 k2), some ⟨j, a.actId, a.succeeds⟩) := by
            simp [queueTick, ← h, hq, hl]
          simp only [ht1, ht2, Option.toList_some, List.cons_append, List.nil_append]
          rw [settledFor_cons_eq j _ _ rfl, settledFor_cons_eq j _ _ rfl]
          exact congrArg _ (ih _ _ j (by simp))
        · have ht1 : queueTick q1 j =
              ((fun k2 => if k2 = j then { a with latency := a.latency - 1 } :: rest
                          else q1 k2), none) := by
            simp [queueTick, hq, hl]
          have ht2 : queueTick q2 j =
              ((fun k2 => if k2 = j then { a with latency := a.latency - 1 } :: rest
                          else q2 k2), none) := by
            simp [queueTick, ← h, hq, hl]
          simp only [ht1, ht2, Option.toList_none, List.nil_append]
          exact ih _ _ j (by simp)
    · have h1 : (queueTick q1 j).1 k = (queueTick q2 j).1 k := by
        rw [queueTick_fst_apply_ne q1 j k (fun hh => hjk hh.symm),
            queueTick_fst_apply_ne q2 j k (fun hh => hjk hh.symm)]
        exact h
      have hdrop : ∀ q : QState,
          settledFor k ((queueTick q j).2.toList ++ runQueue (queueTick q j).1 ks)
            = settledFor k (runQueue (queueTick q j).1 ks) := by
        intro q
        cases hev : (queueTick q j).2 with
        | none => simp
        | some e =>
          have hk : e.key = j := queueTick_snd_key q j e hev
          simp only [Option.toList_some, List.cons_append, List.nil_append]
          exact settledFor_cons_ne k e _ (by rw [hk]; exact fun hh => hjk hh)
      rw [hdrop q1, hdrop q2]
      exact ih _ _ k h1

theorem laneWork_cons (a : QAction) (rest : List QAction) :
    laneWork (a :: rest) = a.latency + 1 + laneWork rest := by
  simp [laneWork]

/-- Given enough consecutive ticks, a lane drains completely, settling
every enqueued action in FIFO order. -/
theorem settledFor_drain (k : String) :
    ∀ (n : Nat) (q : QState), laneWork (q k) ≤ n →
      settledFor k (runQueue q (List.replicate n k)) = (q k).map QAction.actId := by
  intro n
  induction n with
  | zero =>
    intro q h
    cases hq : q k with
    | nil => simp [runQueue, settledFor, hq]
    | cons a rest => rw [hq, laneWork_cons] at h; omega
  | succ n ih =>
    intro q h
    rw [List.replicate_succ]
    show settledFor k ((queueTick q k).2.toList ++
        runQueue (queueTick q k).1 (List.replicate n k)) = (q k).map QAction.actId
    cases hq : q k with
    | nil =>
      have ht : queueTick q k = (q, none) := by simp [queueTick, hq]
      have := ih q (by rw [hq]; simp [laneWork])
      simp [ht, this, hq]
    | cons a rest =>
      by_cases hl : a.latency = 0
      · have ht : queueTick q k =
            ((fun k2 => if k2 = k then rest else q k2), some ⟨k, a.actId, a.succeeds⟩) := by
          simp [queueTick, hq, hl]
        have hle : laneWork rest ≤ n := by rw [hq, laneWork_cons] at h; omega
        have hrec := ih (fun k2 => if k2 = k then rest else q k2) (by simpa using hle)
        simp only [if_pos rfl] at hrec
        rw [ht]
        simp only [Option.toList_some, List.cons_append, List.nil_append]
        rw [settledFor_cons_eq k _ _ rfl, hrec, hq]
        simp
      · have ht : queueTick q k =
            ((fun k2 => if k2 = k then { a with latency := a.latency - 1 } :: rest
                        else q k2), none) := by
          simp [queueTick, hq, hl]
        have hle : laneWork ({ a with latency := a.latency - 1 } :: rest) ≤ n := by
          rw [laneWork_cons]
          show a.latency - 1 + 1 + laneWork rest ≤ n
          rw [hq, laneWork_cons] at h
          omega
        have hrec := ih (fun k2 => if k2 = k then { a with latency := a.latency - 1 } :: rest
                                   else q k2) (by simpa using hle)
        simp only [if_pos rfl] at hrec
        rw [ht]
        simpa [hq] using hrec

/-! ## Key-derivation lemmas -/

theorem key_suffix_inj (p : String) (id1 id2 : Nat)
    (h : p ++ toString id1 = p ++ toString id2) : id1 = id2 := by
  have hd := congrArg String.data h
  rw [String.data_append, String.data_append] at hd
  have h2 : (toString id1).data = (toString id2).data := List.append_cancel_left hd
  apply decDigits_injective
  rw [← repr_data_eq_decDigits, ← repr_data_eq_decDigits]
  exact h2

theorem append_ne_of_head_ne (a b : String) (c d : Char) (ta tb : List Char)
    (ha : a.data = c :: ta) (hb : b.data = d :: tb) (hcd : c ≠ d) (s t : String) :
    a ++ s ≠ b ++ t := by
  intro h
  have hd := congrArg String.data h
  rw [String.data_append, String.data_append, ha, hb] at hd
  simp only [List.cons_append, List.cons.injEq] at hd
  exact hcd hd.1

/-! ## The re-entrancy guard invariant of `TaskItem` -/

/-- Invariant tying the `isUpdating` guard to the set of in-flight remote
calls: at most one call is pending, and when the guard is lowered no call
is pending. -/
def GuardInv (s : CState) : Prop :=
  s.pending.length ≤ 1 ∧ (s.isUpdating = false → s.pending = [])

theorem guardInv_step (s : CState) (e : UiEvent) (h : GuardInv s) :
    GuardInv (step s e) := by
  obtain ⟨h1, h2⟩ := h
  cases e with
  | clickToggle =>
    cases hu : s.isUpdating with
    | true =>
      have hs : step s UiEvent.clickToggle = s := by simp [step, hu]
      rw [hs]; exact ⟨h1, h2⟩
    | false =>
      have hp := h2 hu
      constructor
      · simp [step, hu, hp]
      · intro hfalse
        simp [step, hu] at hfalse
  | saveEdit =>
    by_cases hc : s.isUpdating = true ∨ jsTrim s.title = ""
    · have hs : step s UiEvent.saveEdit =
          { s with title := s.task.title, isEditing := false } := by
        simp only [step, if_pos hc]
      rw [hs]
      exact ⟨h1, h2⟩
    · push_neg at hc
      have hu : s.isUpdating = false := by
        cases hb : s.isUpdating
        · rfl
        · exact absurd hb hc.1
      have hp := h2 hu
      constructor
      · simp [step, hu, hc.2, hp]
      · intro hfalse
        simp [step, hu, hc.2] at hfalse
  | confirmDelete =>
    cases hu : s.isUpdating with
    | true =>
      have hs : step s UiEvent.confirmDelete = s := by simp [step, hu]
      rw [hs]; exact ⟨h1, h2⟩
    | false =>
      have hp := h2 hu
      constructor
      · simp [step, hu, hp]
      · intro hfalse
        simp [step, hu] at hfalse
  | settleOk t =>
    cases hp : s.pending with
    | nil =>
      have hs : step s (UiEvent.settleOk t) = s := by simp [step, hp]
      rw [hs]; exact ⟨h1, h2⟩
    | cons c rest =>
      have hr : rest = [] := by
        rw [hp] at h1
        simpa using h1
      subst hr
      cases c with
      | toggle prev => exact ⟨by simp [step, hp], by simp [step, hp]⟩
      | edit => exact ⟨by simp [step, hp], by simp [step, hp]⟩
      | delete => exact ⟨by simp [step, hp], by simp [step, hp]⟩
  | settleErr =>
    cases hp : s.pending with
    | nil =>
      have hs : step s UiEvent.settleErr = s := by simp [step, hp]
      rw [hs]; exact ⟨h1, h2⟩
    | cons c rest =>
      have hr : rest = [] := by
        rw [hp] at h1
        simpa using h1
      subst hr
      cases c with
      | toggle prev => exact ⟨by simp [step, hp], by simp [step, hp]⟩
      | edit => exact ⟨by simp [step, hp], by simp [step, hp]⟩
      | delete => exact ⟨by simp [step, hp], by simp [step, hp]⟩

theorem guardInv_foldl :
    ∀ (evs : List UiEvent) (s : CState), GuardInv s → GuardInv (evs.foldl step s) := by
  intro evs
  induction evs with
  | nil => intro s h; exact h
  | cons e rest ih => intro s h; exact ih (step s e) (guardInv_step s e h)

theorem guardInv_runUi (t : Task) (evs : List UiEvent) :
    GuardInv (runUi (initState t) evs) :=
  guardInv_foldl evs (initState t) ⟨by simp [initState], fun _ => rfl⟩

/-! ## Concrete fixtures used by witnesses and counterexamples -/

/-- A sample task. -/
def wTask : Task :=
  { id := 1, title := "Alpha", is_completed := false, user_id := "u1"
  , created_at := "2024-01-01", updated_at := "2024-01-02" }

/-- The server's reconciled version of `wTask` after a toggle. -/
def wTask2 : Task :=
  { id := 1, title := "Alpha", is_completed := true, user_id := "u1"
  , created_at := "2024-01-01", updated_at := "2024-01-03" }

/-- Component state with a toggle operation in flight. -/
def sInFlight : CState := step (initState wTask) UiEvent.clickToggle

/-- Component state whose edit field holds only whitespace. -/
def sBlank : CState := { initState wTask with title := "   ", isEditing := true }

/-- Component state with a rename operation in flight. -/
def sEditInFlight : CState :=
  step { initState wTask with title := "Beta", isEditing := true } UiEvent.saveEdit

/-! ## Claims -/

/-- C1: for every sequence of operations enqueued on the Keyed Serial
Queue under one key, the operations settle in exactly their enqueue
order, regardless of each operation's individual completion latency (the
latencies are free in `ops` and the interleaving `schedule` is
arbitrary): under any schedule the settlements for the key are an initial
segment of the enqueue order, and a schedule granting the lane its full
work drains it completely in enqueue order, failures included. -/
theorem C1_keyed_queue_fifo (k : String) (ops : List QAction) (q0 : QState)
    (schedule : List String) :
    (∃ m, m ≤ (q0 k ++ ops).length ∧
      settledFor k (runQueue (enqueueAll q0 k ops) schedule)
        = ((q0 k ++ ops).map QAction.actId).take m) ∧
    settledFor k (runQueue (enqueueAll q0 k ops)
        (List.replicate (laneWork (q0 k ++ ops)) k))
      = (q0 k ++ ops).map QAction.actId := by
  constructor
  · have h := settledFor_runQueue_take schedule (enqueueAll q0 k ops) k
    rwa [enqueueAll_apply] at h
  · have h := settledFor_drain k (laneWork (q0 k ++ ops)) (enqueueAll q0 k ops)
      (by rw [enqueueAll_apply])
    rwa [enqueueAll_apply] at h

/-- C2: from an idle state whose completion flag is `b`, the toggle
handler flips the UI flag to `!b` synchronously — the enqueued call is
still unsettled — and if that call then fails, the flag is restored to
the snapshot `b`. -/
theorem C2_optimistic_toggle (s : CState) (b : Bool)
    (hu : s.isUpdating = false) (hp : s.pending = []) (hb : s.isCompleted = b) :
    (step s UiEvent.clickToggle).isCompleted = !b ∧
    (step s UiEvent.clickToggle).pending = [Cont.toggle b] ∧
    (step s UiEvent.clickToggle).calls
      = s.calls ++ [(toggleKey s.task.id, Request.putCompleted s.task.id (!b))] ∧
    (step (step s UiEvent.clickToggle) UiEvent.settleErr).isCompleted = b := by
  subst hb
  refine ⟨?_, ?_, ?_, ?_⟩ <;> simp [step, hu, hp]

/-- Witness for C2 at the sample task. -/
theorem C2_optimistic_toggle_witness :
    (step (initState wTask) UiEvent.clickToggle).isCompleted = !false ∧
    (step (initState wTask) UiEvent.clickToggle).pending = [Cont.toggle false] ∧
    (step (initState wTask) UiEvent.clickToggle).calls
      = (initState wTask).calls ++
          [(toggleKey (initState wTask).task.id,
            Request.putCompleted (initState wTask).task.id (!false))] ∧
    (step (step (initState wTask) UiEvent.clickToggle) UiEvent.settleErr).isCompleted
      = false :=
  C2_optimistic_toggle (initState wTask) false rfl rfl rfl

/-- C3: when a queued toggle or rename settles successfully, the
component adopts the entity returned by the remote call (the toggle
continuation overwrites the flag with the returned `is_completed`, not
the tentative guess) and notifies the parent with that returned entity;
the parent's `handleTaskUpdated` then replaces every list entry carrying
that id by the returned entity. -/
theorem C3_success_reconciliation (s : CState) (prev : Bool) (rest : List Cont)
    (t : Task) :
    (s.pending = Cont.toggle prev :: rest →
      (step s (UiEvent.settleOk t)).isCompleted = t.is_completed ∧
      (step s (UiEvent.settleOk t)).updatedEvents = s.updatedEvents ++ [t]) ∧
    (s.pending = Cont.edit :: rest →
      (step s (UiEvent.settleOk t)).updatedEvents = s.updatedEvents ++ [t] ∧
      (step s (UiEvent.settleOk t)).isEditing = false) ∧
    (∀ tasks : List Task, (∃ x ∈ tasks, x.id = t.id) → t ∈ handleTaskUpdated tasks t) ∧
    (∀ (tasks : List Task) (x : Task),
      x ∈ handleTaskUpdated tasks t → x.id = t.id → x = t) := by
  refine ⟨?_, ?_, ?_, ?_⟩
  · intro hp
    constructor <;> simp [step, hp]
  · intro hp
    constructor <;> simp [step, hp]
  · intro tasks hx
    obtain ⟨x, hmem, hid⟩ := hx
    unfold handleTaskUpdated
    exact List.mem_map.mpr ⟨x, hmem, by simp [hid]⟩
  · intro tasks x hx hid
    obtain ⟨y, hy, hxy⟩ := List.mem_map.mp hx
    by_cases h : y.id = t.id
    · rw [← hxy]; simp [h]
    · rw [← hxy] at hid
      simp [h] at hid

/-- Witness for C3: settle the in-flight toggle with the server's entity. -/
theorem C3_success_reconciliation_witness :
    ((step sInFlight (UiEvent.settleOk wTask2)).isCompleted = wTask2.is_completed ∧
     (step sInFlight (UiEvent.settleOk wTask2)).updatedEvents
       = sInFlight.updatedEvents ++ [wTask2]) ∧
    wTask2 ∈ handleTaskUpdated [wTask] wTask2 :=
  ⟨(C3_success_reconciliation sInFlight false [] wTask2).1 rfl,
   (C3_success_reconciliation sInFlight false [] wTask2).2.2.1 [wTask]
     ⟨wTask, by simp, rfl⟩⟩

/-- C4: a rename whose input trims to the empty string is a purely local
no-op: nothing is enqueued, no notification is emitted, the title reverts
to the task's title and editing mode is exited, with every other field
untouched. -/
theorem C4_empty_rename_noop (s : CState) (h : jsTrim s.title = "") :
    (step s UiEvent.saveEdit).calls = s.calls ∧
    (step s UiEvent.saveEdit).pending = s.pending ∧
    (step s UiEvent.saveEdit).title = s.task.title ∧
    (step s UiEvent.saveEdit).isEditing = false ∧
    (step s UiEvent.saveEdit).updatedEvents = s.updatedEvents ∧
    (step s UiEvent.saveEdit).deletedEvents = s.deletedEvents ∧
    (step s UiEvent.saveEdit).isCompleted = s.isCompleted ∧
    (step s UiEvent.saveEdit).isUpdating = s.isUpdating := by
  refine ⟨?_, ?_, ?_, ?_, ?_, ?_, ?_, ?_⟩ <;> simp [step, h]

/-- Witness for C4 at a whitespace-only edit field. -/
theorem C4_empty_rename_noop_witness :
    (step sBlank UiEvent.saveEdit).calls = sBlank.calls ∧
    (step sBlank UiEvent.saveEdit).pending = sBlank.pending ∧
    (step sBlank UiEvent.saveEdit).title = sBlank.task.title ∧
    (step sBlank UiEvent.saveEdit).isEditing = false ∧
    (step sBlank UiEvent.saveEdit).updatedEvents = sBlank.updatedEvents ∧
    (step sBlank UiEvent.saveEdit).deletedEvents = sBlank.deletedEvents ∧
    (step sBlank UiEvent.saveEdit).isCompleted = sBlank.isCompleted ∧
    (step sBlank UiEvent.saveEdit).isUpdating = sBlank.isUpdating :=
  C4_empty_rename_noop sBlank (by decide)

/-- C5: delete is not speculative: invoking the delete handler emits no
deletion notification before settlement; the notification (which drives
the parent's removal) is emitted exactly on success, and on failure the
notification log is unchanged so the task stays in the visible list —
`handleTaskDeleted` removes precisely the entries with the deleted id,
and only runs when notified. -/
theorem C5_delete_after_success (s : CState) (t : Task)
    (hu : s.isUpdating = false) (hp : s.pending = []) :
    (step s UiEvent.confirmDelete).deletedEvents = s.deletedEvents ∧
    (step s UiEvent.confirmDelete).calls
      = s.calls ++ [(deleteKey s.task.id, Request.deleteTask s.task.id)] ∧
    (step (step s UiEvent.confirmDelete) (UiEvent.settleOk t)).deletedEvents
      = s.deletedEvents ++ [s.task.id] ∧
    (step (step s UiEvent.confirmDelete) UiEvent.settleErr).deletedEvents
      = s.deletedEvents ∧
    (step (step s UiEvent.confirmDelete) UiEvent.settleErr).updatedEvents
      = s.updatedEvents ∧
    (∀ (tasks : List Task) (x : Task),
      x ∈ handleTaskDeleted tasks s.task.id ↔ x ∈ tasks ∧ x.id ≠ s.task.id) := by
  refine ⟨?_, ?_, ?_, ?_, ?_, ?_⟩ <;>
    simp [step, hu, hp, handleTaskDeleted, List.mem_filter]

/-- Witness for C5 at the sample task. -/
theorem C5_delete_after_success_witness :
    (step (initState wTask) UiEvent.confirmDelete).deletedEvents
      = (initState wTask).deletedEvents ∧
    (step (initState wTask) UiEvent.confirmDelete).calls
      = (initState wTask).calls ++
          [(deleteKey (initState wTask).task.id,
            Request.deleteTask (initState wTask).task.id)] ∧
    (step (step (initState wTask) UiEvent.confirmDelete)
        (UiEvent.settleOk wTask2)).deletedEvents
      = (initState wTask).deletedEvents ++ [(initState wTask).task.id] ∧
    (step (step (initState wTask) UiEvent.confirmDelete)
        UiEvent.settleErr).deletedEvents = (initState wTask).deletedEvents ∧
    (step (step (initState wTask) UiEvent.confirmDelete)
        UiEvent.settleErr).updatedEvents = (initState wTask).updatedEvents ∧
    (∀ (tasks : List Task) (x : Task),
      x ∈ handleTaskDeleted tasks (initState wTask).task.id ↔
        x ∈ tasks ∧ x.id ≠ (initState wTask).task.id) :=
  C5_delete_after_success (initState wTask) wTask2 rfl rfl

/-- C6: along every event sequence from the initial state, at most one
remote operation initiated from the task item is in flight, and while one
is in flight any new user action (toggle click, edit save, delete
confirmation) enqueues nothing and starts no second concurrent call. -/
theorem C6_single_flight (t : Task) (evs : List UiEvent) :
    (runUi (initState t) evs).pending.length ≤ 1 ∧
    (∀ e : UiEvent,
      (e = UiEvent.clickToggle ∨ e = UiEvent.saveEdit ∨ e = UiEvent.confirmDelete) →
      (runUi (initState t) evs).isUpdating = true →
      (step (runUi (initState t) evs) e).pending = (runUi (initState t) evs).pending ∧
      (step (runUi (initState t) evs) e).calls = (runUi (initState t) evs).calls) := by
  constructor
  · exact (guardInv_runUi t evs).1
  · intro e he hu
    rcases he with rfl | rfl | rfl
    · constructor <;> simp [step, hu]
    · constructor <;> simp [step, hu]
    · constructor <;> simp [step, hu]

/-- Witness for C6: after one toggle click, a save attempt changes
neither the pending set nor the call log. -/
theorem C6_single_flight_witness :
    (runUi (initState wTask) [UiEvent.clickToggle]).pending.length ≤ 1 ∧
    (step (runUi (initState wTask) [UiEvent.clickToggle]) UiEvent.saveEdit).pending
      = (runUi (initState wTask) [UiEvent.clickToggle]).pending ∧
    (step (runUi (initState wTask) [UiEvent.clickToggle]) UiEvent.saveEdit).calls
      = (runUi (initState wTask) [UiEvent.clickToggle]).calls :=
  ⟨(C6_single_flight wTask [UiEvent.clickToggle]).1,
   (C6_single_flight wTask [UiEvent.clickToggle]).2 UiEvent.saveEdit
     (Or.inr (Or.inl rfl)) rfl⟩

/-- C7 counterexample: with a toggle in flight (`pending` nonempty,
`isUpdating` raised) and a valid non-blank title, invoking the
rename-save handler enqueues nothing — `calls` and `pending` are
unchanged — so a rename does not proceed while a toggle on the same
entity is in flight, contrary to the claim. -/
theorem C7_counterexample :
    (step (initState wTask) UiEvent.clickToggle).pending ≠ [] ∧
    (step (initState wTask) UiEvent.clickToggle).isUpdating = true ∧
    jsTrim (step (initState wTask) UiEvent.clickToggle).title ≠ "" ∧
    (step (step (initState wTask) UiEvent.clickToggle) UiEvent.saveEdit).calls
      = (step (initState wTask) UiEvent.clickToggle).calls ∧
    (step (step (initState wTask) UiEvent.clickToggle) UiEvent.saveEdit).pending
      = (step (initState wTask) UiEvent.clickToggle).pending := by
  refine ⟨by decide, rfl, by decide, rfl, rfl⟩

/-- C7 amended: at the queue level, enqueueing under one key leaves every
other lane untouched and never delays another key's settlements (the
settlement sequence for `kB` is identical with or without the enqueue on
`kA`); however, at the component level a rename is not started while any
operation on the entity is in flight — the shared `isUpdating` guard
makes the save handler enqueue nothing. -/
theorem C7_amended_independent_lanes (q : QState) (kA kB : String) (a : QAction)
    (schedule : List String) (h : kB ≠ kA) :
    enqueue q kA a kB = q kB ∧
    settledFor kB (runQueue (enqueue q kA a) schedule)
      = settledFor kB (runQueue q schedule) ∧
    (∀ s : CState, s.isUpdating = true →
      (step s UiEvent.saveEdit).calls = s.calls ∧
      (step s UiEvent.saveEdit).pending = s.pending) := by
  refine ⟨enqueue_apply_ne q kA kB a h, ?_, ?_⟩
  · exact settledFor_runQueue_congr schedule _ q kB (enqueue_apply_ne q kA kB a h)
  · intro s hu
    constructor <;> simp [step, hu]

/-- Witness for the amended C7 at concrete keys, a concrete schedule and
the in-flight component state. -/
theorem C7_amended_independent_lanes_witness :
    enqueue emptyQueue "toggle-1" ⟨0, 0, true⟩ "edit-1" = emptyQueue "edit-1" ∧
    settledFor "edit-1" (runQueue (enqueue emptyQueue "toggle-1" ⟨0, 0, true⟩)
        ["toggle-1"])
      = settledFor "edit-1" (runQueue emptyQueue ["toggle-1"]) ∧
    (step sInFlight UiEvent.saveEdit).calls = sInFlight.calls :=
  ⟨(C7_amended_independent_lanes emptyQueue "toggle-1" "edit-1" ⟨0, 0, true⟩
      ["toggle-1"] (by decide)).1,
   (C7_amended_independent_lanes emptyQueue "toggle-1" "edit-1" ⟨0, 0, true⟩
      ["toggle-1"] (by decide)).2.1,
   ((C7_amended_independent_lanes emptyQueue "toggle-1" "edit-1" ⟨0, 0, true⟩
      ["toggle-1"] (by decide)).2.2 sInFlight rfl).1⟩

/-- C8: the lane keys identify the (entity, mutation-kind) pair uniquely
and stably: each kind's key agrees on two ids exactly when the ids agree,
and keys of different kinds never collide. -/
theorem C8_key_uniqueness (id1 id2 : Nat) :
    (toggleKey id1 = toggleKey id2 ↔ id1 = id2) ∧
    (editKey id1 = editKey id2 ↔ id1 = id2) ∧
    (deleteKey id1 = deleteKey id2 ↔ id1 = id2) ∧
    toggleKey id1 ≠ editKey id2 ∧
    toggleKey id1 ≠ deleteKey id2 ∧
    editKey id1 ≠ deleteKey id2 := by
  refine ⟨⟨key_suffix_inj "toggle-" id1 id2, fun h => by rw [h]⟩,
          ⟨key_suffix_inj "edit-" id1 id2, fun h => by rw [h]⟩,
          ⟨key_suffix_inj "delete-" id1 id2, fun h => by rw [h]⟩,
          append_ne_of_head_ne "toggle-" "edit-" 't' 'e'
            ['o', 'g', 'g', 'l', 'e', '-'] ['d', 'i', 't', '-'] rfl rfl
            (by decide) (toString id1) (toString id2),
          append_ne_of_head_ne "toggle-" "delete-" 't' 'd'
            ['o', 'g', 'g', 'l', 'e', '-'] ['e', 'l', 'e', 't', 'e', '-'] rfl rfl
            (by decide) (toString id1) (toString id2),
          append_ne_of_head_ne "edit-" "delete-" 'e' 'd'
            ['d', 'i', 't', '-'] ['e', 'l', 'e', 't', 'e', '-'] rfl rfl
            (by decide) (toString id1) (toString id2)⟩

/-- Witness for C8 at the concrete ids 1 and 2. -/
theorem C8_key_uniqueness_witness :
    (toggleKey 1 = toggleKey 2 ↔ (1 : Nat) = 2) ∧
    (editKey 1 = editKey 2 ↔ (1 : Nat) = 2) ∧
    (deleteKey 1 = deleteKey 2 ↔ (1 : Nat) = 2) ∧
    toggleKey 1 ≠ editKey 2 ∧
    toggleKey 1 ≠ deleteKey 2 ∧
    editKey 1 ≠ deleteKey 2 :=
  C8_key_uniqueness 1 2

/-- Message of a thrown `Error`, `none` when nothing was thrown via
`throw new Error(errorMessage)`. -/
def errorMessageOf : Except ApiFailure ErrorBody → Option String
  | .error (.apiError m) => some m
  | _ => none

/-- C9 counterexample: a non-ok response whose body parses as JSON
containing `detail` with the empty-string value.  The claim says the
thrown message equals that `detail` field (the empty string); the code's
truthiness test skips a falsy `detail`, so the message is the default
one, not the empty string. -/
theorem C9_counterexample :
    (HttpResponse.mk false 500 "Internal Server Error"
        (some ⟨some ""⟩)).ok = false ∧
    errorMessageOf (apiRequest ⟨false, 500, "Internal Server Error", some ⟨some ""⟩⟩)
      = some "API request failed: 500 Internal Server Error" ∧
    errorMessageOf (apiRequest ⟨false, 500, "Internal Server Error", some ⟨some ""⟩⟩)
      ≠ some "" := by
  refine ⟨rfl, by decide, by decide⟩

/-- C9 amended: for every non-ok response, `apiRequest` throws and never
returns a value; the thrown message equals the body's `detail` field when
the body parses as JSON containing a truthy (non-empty string) `detail`,
and otherwise — `detail` absent, `detail` falsy, or the body unparsable —
equals the default `API request failed: status statusText` message. -/
theorem C9_amended_error_message (resp : HttpResponse) (h : resp.ok = false) :
    (∀ v : ErrorBody, apiRequest resp ≠ Except.ok v) ∧
    (∀ (body : ErrorBody) (d : String), resp.jsonBody = some body →
      body.detail = some d → d ≠ "" →
      apiRequest resp = Except.error (ApiFailure.apiError d)) ∧
    (∀ body : ErrorBody, resp.jsonBody = some body →
      (body.detail = none ∨ body.detail = some "") →
      apiRequest resp = Except.error (ApiFailure.apiError (defaultMsg resp))) ∧
    (resp.jsonBody = none →
      apiRequest resp = Except.error (ApiFailure.apiError (defaultMsg resp))) := by
  refine ⟨?_, ?_, ?_, ?_⟩
  · intro v hv
    simp [apiRequest, h] at hv
  · intro body d hb hd hne
    simp [apiRequest, h, hb, hd, hne]
  · intro body hb hdet
    rcases hdet with hd | hd <;> simp [apiRequest, h, hb, hd]
  · intro hb
    simp [apiRequest, h, hb]

/-- Witness for the amended C9 at a concrete 404 with a truthy detail. -/
theorem C9_amended_error_message_witness :
    apiRequest ⟨false, 404, "Not Found", some ⟨some "Task not found"⟩⟩
      = Except.error (ApiFailure.apiError "Task not found") :=
  (C9_amended_error_message ⟨false, 404, "Not Found", some ⟨some "Task not found"⟩⟩
      rfl).2.1 ⟨some "Task not found"⟩ "Task not found" rfl rfl (by decide)

/-- C10: every completed run of the rename-save handler leaves editing
mode: the early-return path (guard raised or blank trimmed title) clears
`isEditing` and resets the title; the success settlement clears
`isEditing`; the failure settlement clears `isEditing` and resets the
title. -/
theorem C10_editing_mode_exit (s : CState) :
    ((s.isUpdating = true ∨ jsTrim s.title = "") →
      (step s UiEvent.saveEdit).isEditing = false ∧
      (step s UiEvent.saveEdit).title = s.task.title) ∧
    (∀ (rest : List Cont) (t : Task), s.pending = Cont.edit :: rest →
      (step s (UiEvent.settleOk t)).isEditing = false) ∧
    (∀ rest : List Cont, s.pending = Cont.edit :: rest →
      (step s UiEvent.settleErr).isEditing = false ∧
      (step s UiEvent.settleErr).title = s.task.title) := by
  refine ⟨?_, ?_, ?_⟩
  · intro hc
    rcases hc with hu | ht
    · constructor <;> simp [step, hu]
    · constructor <;> simp [step, ht]
  · intro rest t hp
    simp [step, hp]
  · intro rest hp
    constructor <;> simp [step, hp]

/-- Witness for C10: the blank early-return path and both settlements of
an in-flight rename. -/
theorem C10_editing_mode_exit_witness :
    ((step sBlank UiEvent.saveEdit).isEditing = false ∧
     (step sBlank UiEvent.saveEdit).title = sBlank.task.title) ∧
    (step sEditInFlight (UiEvent.settleOk wTask2)).isEditing = false ∧
    ((step sEditInFlight UiEvent.settleErr).isEditing = false ∧
     (step sEditInFlight UiEvent.settleErr).title = sEditInFlight.task.title) :=
  ⟨(C10_editing_mode_exit sBlank).1 (Or.inr (by decide)),
   (C10_editing_mode_exit sEditInFlight).2.1 [] wTask2 (by decide),
   (C10_editing_mode_exit sEditInFlight).2.2 [] (by decide)⟩

end TaskApp
